import Mathlib

/-!
Verification of the construction-assistant agent (`src/construction_assistant`).

The development shallowly embeds the Python sources:
* `agent.py` — the mock Bid Source `fetch_subcontractor_bids` and the ranker
  `compare_bids`;
* `enhanced_langgraph_agent.py` — the regex extractor, the validation /
  clarification / fetch / refetch nodes, and the compiled graph of
  `build_graph` in the `use_llm = False` configuration, in two variants:
  `run_trace` persists the underscore working keys across nodes as if they
  were declared state channels, so the two conditional routers can branch
  on the computed flags and every routing outcome is covered; `run_real`
  applies the real `AgentState` schema filter of `schema.py`, under which
  LangGraph drops every write to an undeclared key, both routers always
  read their defaults, and each run takes the single real path (through
  `clarify`, never through `refetch`);
* `tools.py` — `fetch_market_data` and `estimate_project_cost`;
* `old/src/construction_assistant/tool_cache.py` — the memory cache.

Python floats appearing in the sources (0.3/0.5/0.6 confidences, the
0.8/1.0/1.5 cost multipliers) are exact decimals and every arithmetic
operation performed on them in the sources yields an exactly representable
result, so they are embedded as rationals.  Python `str` is embedded through
`String.data : List Char`; `str.upper`/`str.lower` act characterwise (the
sources only ever feed them ASCII).  Machine integers do not overflow here
(Python ints are unbounded), so `ℕ` is used directly.
-/

/-- Bid record produced by the Bid Source: vendor name, price, lead time. -/
structure Bid where
  subcontractor : String
  price : ℚ
  lead_time_days : ℕ
deriving DecidableEq, Repr

/-- Truthiness of an optional string, as Python evaluates `if x:`:
`None` and the empty string are falsy. -/
def truthyStr : Option String → Bool
  | none => false
  | some s => !s.data.isEmpty

/-- Checksum used by `fetch_subcontractor_bids` to derive its seed:
`sum(ord(c) for c in s)`. -/
def checksum (l : List Char) : ℕ := (l.map Char.toNat).sum

/-- Exact rational denoting a Python int. -/
def natQ (n : ℕ) : ℚ := mkRat n 1

/-- Return value of `fetch_subcontractor_bids`. -/
structure FetchResult where
  project_id : String
  bids : List Bid
  source : String
deriving DecidableEq, Repr

/-- Seed of the mock Bid Source (`agent.py` lines 58-62): checksum of the
project id when it is truthy, otherwise of the first 20 characters of the
prompt, reduced `% 10 + 1`. -/
def seedOf (prompt : String) (project_id : Option String) : ℕ :=
  if truthyStr project_id then checksum (project_id.getD "").data % 10 + 1
  else checksum (prompt.data.take 20) % 10 + 1

/-- Model of `agent.py` `fetch_subcontractor_bids`: three deterministic bids
whose prices depend on the seed. -/
def fetch_subcontractor_bids (prompt : String) (project_id : Option String) :
    FetchResult :=
  let seed := seedOf prompt project_id
  { project_id := if truthyStr project_id then project_id.getD "" else "mock-project"
    bids := [⟨"ACME Excavation", natQ (10000 + seed * 10), 7⟩,
             ⟨"Builders Co.", natQ (9500 + seed * 12), 10⟩,
             ⟨"Fast Foundations", natQ (12000 + seed * 8), 5⟩]
    source := "mock-cosuno" }

/-- Sort key of the ranker: price, ascending. -/
def priceLE (a b : Bid) : Prop := a.price ≤ b.price

instance : DecidableRel priceLE :=
  fun a b => inferInstanceAs (Decidable (a.price ≤ b.price))

instance : IsTotal Bid priceLE := ⟨fun a b => le_total a.price b.price⟩

instance : IsTrans Bid priceLE := ⟨fun _ _ _ h1 h2 => le_trans h1 h2⟩

/-- Stable ascending sort by price.  Python `sorted` (Timsort) is a stable
sort; a stable sort is modelled by insertion sort. -/
def sortBidsByPrice (bids : List Bid) : List Bid := List.insertionSort priceLE bids

/-- Boolean predicate picking the bids of one given price, used to state
stability of the ranker. -/
def priceIs (p : ℚ) (b : Bid) : Bool := decide (b.price = p)

/-- Ranker result: top bids, count, and (when bids exist) the average price. -/
structure Comparison where
  top : List Bid
  count : ℕ
  average_price : Option ℚ
deriving DecidableEq, Repr

/-- Model of `agent.py` `compare_bids`: empty input yields
`{top: [], count: 0}` without an `average_price` key; otherwise the bids are
stably sorted by price and the first `top_n` are returned together with the
count and average price. -/
def compare_bids (bids : List Bid) (top_n : ℕ) : Comparison :=
  if bids.isEmpty then ⟨[], 0, none⟩
  else
    let sorted_bids := sortBidsByPrice bids
    ⟨sorted_bids.take top_n, bids.length,
     some ((bids.map Bid.price).sum / (bids.length : ℚ))⟩

/-! ### Regex extractor (`enhanced_langgraph_agent.py` `_parse_with_regex`) -/

/-- Character class `[A-Z]`. -/
def isUpperCh (c : Char) : Bool := 65 ≤ c.toNat && c.toNat ≤ 90

/-- Character class `\d` (ASCII). -/
def isDigitCh (c : Char) : Bool := 48 ≤ c.toNat && c.toNat ≤ 57

/-- Character class `[a-z]`. -/
def isLowerCh (c : Char) : Bool := 97 ≤ c.toNat && c.toNat ≤ 122

/-- Character class `\w` (ASCII model), used by the `\b` boundaries of the
clarification regex. -/
def isWordCh (c : Char) : Bool := isUpperCh c || isLowerCh c || isDigitCh c || c == '_'

/-- Characterwise model of Python `str.upper()` (the agent only feeds it
ASCII). -/
def upperStr (s : String) : String := String.mk (s.data.map Char.toUpper)

/-- Characterwise model of Python `str.lower()`. -/
def lowerStr (s : String) : String := String.mk (s.data.map Char.toLower)

/-- Substring test `needle in hay`, on character lists. -/
def containsSub (needle hay : String) : Bool := decide (needle.data <:+: hay.data)

/-- Attempt of the pattern `([A-Z]+[-]?\d+|P[-]?\d+)` anchored at the head of
`l`, with Python's greedy backtracking semantics.  The second alternative is
subsumed by the first (`P` is in `[A-Z]`).  `[A-Z]+` grabs the maximal run of
capitals; backtracking it can never help because the following character
would again be a capital, which matches neither `[-]?`'s hyphen nor `\d`.
After the capitals, either a hyphen followed by at least one digit or
directly at least one digit must follow. -/
def matchIdAt (l : List Char) : Option (List Char) :=
  let letters := l.takeWhile isUpperCh
  if letters.isEmpty then none
  else
    let rest := l.drop letters.length
    if rest.head? = some '-' then
      let ds := (rest.drop 1).takeWhile isDigitCh
      if ds.isEmpty then none else some (letters ++ '-' :: ds)
    else
      let ds := rest.takeWhile isDigitCh
      if ds.isEmpty then none else some (letters ++ ds)

/-- Model of `re.search` for the identifier pattern: try every start
position from the left, return the first successful match. -/
def searchId : List Char → Option (List Char)
  | [] => none
  | c :: cs =>
    match matchIdAt (c :: cs) with
    | some m => some m
    | none => searchId cs

/-- Full-string identifier test: does `l` as a whole match
`[A-Z]+[-]?\d+`? -/
def isIdentList (l : List Char) : Bool :=
  let letters := l.takeWhile isUpperCh
  if letters.isEmpty then false
  else
    let rest := l.drop letters.length
    if rest.head? = some '-' then !(rest.drop 1).isEmpty && (rest.drop 1).all isDigitCh
    else !rest.isEmpty && rest.all isDigitCh

/-- String form of `isIdentList`. -/
def isIdentStr (s : String) : Bool := isIdentList s.data

/-- Scope keyword list of `_parse_with_regex` (matched in list order, first
match wins). -/
def scope_keywords : List String :=
  ["foundation", "excavation", "electrical", "plumbing", "roofing",
   "site clearing", "HVAC"]

/-- Model of `_parse_with_regex`: identifier = first regex match in the
uppercased prompt; scope = first keyword contained in the lowercased
prompt. -/
def parse_with_regex (prompt : String) : Option String × Option String :=
  let project_id := (searchId (upperStr prompt).data).map String.mk
  let scope := scope_keywords.find? fun kw => containsSub (lowerStr kw) (lowerStr prompt)
  (project_id, scope)

/-- Output of the parse node. -/
structure ParseOut where
  project_id : Option String
  scope : Option String
  confidence : ℚ
deriving DecidableEq, Repr

/-- Model of `_parse_node` in the regex configuration (`use_llm = False`):
confidence is 0.6 if a truthy identifier was extracted, 0.3 otherwise. -/
def parse_node_regex (prompt : String) : ParseOut :=
  let r := parse_with_regex prompt
  ⟨r.1, r.2, if truthyStr r.1 then mkRat 6 10 else mkRat 3 10⟩

/-! ### Clarification regex (`_clarify_node`, pattern `\b[A-Z]+-\d+\b`) -/

/-- Word-boundary test against the neighbouring character (`none` at either
end of the text): a `\b` adjacent to a word character of the pattern holds
exactly when the neighbour is absent or not a word character. -/
def boundaryBefore : Option Char → Bool
  | none => true
  | some c => !isWordCh c

/-- Attempt of `\b[A-Z]+-\d+\b` at the head of `l`, `prev` being the
character immediately before `l` (`none` at the start of the text).  The
leading `\b` holds exactly when `prev` is absent or not a word character
(the first pattern character is a capital, hence a word character).  The
trailing `\b` requires the character after the maximal digit run to be
absent or not a word character; backtracking to a shorter digit run can
never help because the following character would then be a digit. -/
def matchClarifyAt (prev : Option Char) (l : List Char) : Option (List Char) :=
  if !(boundaryBefore prev) then none
  else
    let letters := l.takeWhile isUpperCh
    if letters.isEmpty then none
    else
      let rest := l.drop letters.length
      if rest.head? = some '-' then
        let ds := (rest.drop 1).takeWhile isDigitCh
        if ds.isEmpty then none
        else if boundaryBefore (((rest.drop 1).drop ds.length).head?) then
          some (letters ++ '-' :: ds)
        else none
      else none

/-- Left-to-right scan for the clarification pattern. -/
def searchClarifyGo (prev : Option Char) : List Char → Option (List Char)
  | [] => none
  | c :: cs =>
    match matchClarifyAt prev (c :: cs) with
    | some m => some m
    | none => searchClarifyGo (some c) cs

/-- First match of `re.findall(r'\b[A-Z]+-\d+\b', prompt)` (the clarify node
only uses element 0 of the `findall` result, which is the leftmost match). -/
def searchClarify (prompt : String) : Option String :=
  (searchClarifyGo none prompt.data).map String.mk

/-! ### Tool layer (`tools.py`) -/

/-- Numeric benchmark entry of `fetch_market_data`'s lookup table. -/
structure MarketEntry where
  fields : List (String × ℕ)
  market_suppliers : ℕ
  current_trend : String
deriving DecidableEq, Repr

/-- The `market_benchmarks` table of `tools.py`. -/
def market_benchmarks : List (String × MarketEntry) :=
  [("excavation", ⟨[("avg_cost_per_day", 1500), ("avg_cost_per_cubic_yard", 8)], 47, "stable"⟩),
   ("roofing", ⟨[("avg_cost_per_sqft", 12), ("avg_cost_per_project", 15000)], 63, "increasing"⟩),
   ("concrete", ⟨[("avg_cost_per_cubic_yard", 180), ("avg_cost_per_sqft", 8)], 52, "stable"⟩),
   ("general", ⟨[("avg_cost_per_day", 2000)], 100, "unknown"⟩)]

/-- The `general` fallback entry of the benchmarks table. -/
def general_benchmark : MarketEntry := ⟨[("avg_cost_per_day", 2000)], 100, "unknown"⟩

/-- Payload returned by `fetch_market_data` on success. -/
structure MarketPayload where
  scope : String
  timestamp : String
  data : MarketEntry
deriving DecidableEq, Repr

/-- Model of `fetch_market_data`.  The scope argument is `Option String` so
that Python's `None` (failing the `isinstance(scope, str)` check) is
representable; `.error` models a raised `ToolException`.  Unknown scopes use
the `general` entry via `dict.get(key, benchmarks["general"])`. -/
def fetch_market_data (scope : Option String) : Except String MarketPayload :=
  match scope with
  | none => .error "Scope must be a non-empty string"
  | some s =>
    if s.data.isEmpty then .error "Scope must be a non-empty string"
    else .ok ⟨s, "2025-12-06", (market_benchmarks.lookup (lowerStr s)).getD general_benchmark⟩

/-- The `scope_estimates` table of `estimate_project_cost`. -/
def scope_estimates : List (String × List (String × ℕ)) :=
  [("excavation", [("base", 5000), ("labor", 3000), ("equipment", 2000)]),
   ("roofing", [("base", 12000), ("labor", 5000), ("materials", 7000)]),
   ("concrete", [("base", 8000), ("labor", 3000), ("materials", 5000)]),
   ("general", [("base", 10000), ("labor", 6000), ("materials", 4000)])]

/-- The `general` fallback estimate. -/
def general_estimate : List (String × ℕ) :=
  [("base", 10000), ("labor", 6000), ("materials", 4000)]

/-- Complexity multiplier of `estimate_project_cost` as an exact fraction
(0.8, 1.0, 1.5); keyed by the lowercased complexity with default 1.0. -/
def complexity_mult (complexity : String) : ℕ × ℕ :=
  if lowerStr complexity = "low" then (4, 5)
  else if lowerStr complexity = "high" then (3, 2)
  else (1, 1)

/-- The valid complexity values. -/
def valid_complexities : List String := ["low", "medium", "high"]

/-- Payload returned by `estimate_project_cost` on success. -/
structure CostPayload where
  scope : String
  complexity : String
  breakdown : List (String × ℕ)
  estimated_total : ℕ
  confidence : String
deriving DecidableEq, Repr

/-- Cost payload built from an estimate table entry.  Python computes
`int(v * multiplier)` in floats; for every value in the table and every
multiplier the float product is within one ulp above the exact integer
product, so `int` truncation equals the exact value, here `v * num / den`
in `ℕ` (all table values are divisible by 5 and even). -/
def cost_payload_from (est : List (String × ℕ)) (s complexity : String) : CostPayload :=
  let m := complexity_mult complexity
  ⟨s, complexity,
   est.map (fun kv => (kv.1, kv.2 * m.1 / m.2)),
   (est.map (fun kv => kv.2)).sum * m.1 / m.2,
   if complexity ≠ "high" then "high" else "medium"⟩

/-- Model of `estimate_project_cost`: rejects a missing/empty scope and a
complexity outside low/medium/high; unknown scopes fall back to the
`general` estimate. -/
def estimate_project_cost (scope : Option String) (complexity : String) :
    Except String CostPayload :=
  match scope with
  | none => .error "Scope must be a non-empty string"
  | some s =>
    if s.data.isEmpty then .error "Scope must be a non-empty string"
    else if lowerStr complexity ∉ valid_complexities then
      .error "Complexity must be one of low, medium, high"
    else
      .ok (cost_payload_from ((scope_estimates.lookup (lowerStr s)).getD general_estimate)
        s complexity)

/-! ### The orchestrator (`EnhancedLangGraphAgent`) -/

/-- Record of one tool invocation appended to `tool_calls` by
`_use_tools_node`.  `params_complexity` is present only in the cost tool's
success record, as in the source. -/
structure ToolCallRec where
  tool : String
  params_scope : Option String
  params_complexity : Option String
  status : String
  error_msg : Option String
deriving DecidableEq, Repr

/-- The `tool_results` mapping (keys `market_data` / `cost_estimate`,
present only on success). -/
structure ToolResults where
  market_data : Option MarketPayload
  cost_estimate : Option CostPayload
deriving DecidableEq, Repr

/-- Complexity chosen by `_use_tools_node`: "high" when the lowercased scope
contains "roofing"; the "excavation" branch assigns the default "medium"
again and is collapsed. -/
def choose_complexity (s : String) : String :=
  if containsSub "roofing" (lowerStr s) then "high" else "medium"

/-- Model of `_use_tools_node`.  Each tool runs in its own try/except: a
`ToolException` is recorded with status "failed", any other exception with
status "error", and in both cases the node proceeds to the next tool.  When
the state's scope is `None`, the market tool's input validation rejects it,
and the cost tool's block crashes in `scope.lower()` (an `AttributeError`
caught by the generic handler) before the tool is invoked. -/
def use_tools_node (scope : Option String) : List ToolCallRec × ToolResults :=
  let market := fetch_market_data scope
  let mrec : ToolCallRec :=
    match market with
    | .ok _ => ⟨"fetch_market_data", scope, none, "success", none⟩
    | .error e => ⟨"fetch_market_data", scope, none, "failed", some e⟩
  let mres : Option MarketPayload :=
    match market with
    | .ok p => some p
    | .error _ => none
  match scope with
  | none =>
    ([mrec, ⟨"estimate_project_cost", none, none, "error", some "Unexpected error"⟩],
     ⟨mres, none⟩)
  | some s =>
    let complexity := choose_complexity s
    match estimate_project_cost (some s) complexity with
    | .ok p =>
      ([mrec, ⟨"estimate_project_cost", some s, some complexity, "success", none⟩],
       ⟨mres, some p⟩)
    | .error e =>
      ([mrec, ⟨"estimate_project_cost", some s, none, "failed", some e⟩],
       ⟨mres, none⟩)

/-- Configuration bundle of `EnhancedLangGraphAgent.__init__`. -/
structure Config where
  top_n : ℕ
  min_bids : ℕ
  max_retries : ℕ
deriving DecidableEq, Repr

/-- Behaviour of the external Bid Source: the list of bids returned by the
k-th fetch call (k = number of fetch calls already performed), given the
project id current at call time.  The claims quantify over every such
behaviour. -/
def BidSource : Type := ℕ → Option String → List Bid

/-- The Run State threaded through the graph: the `AgentState` keys of
`schema.py` plus the underscore-prefixed working fields the nodes compute
(`_parse_confidence`, `_validation_passed`, `_fetch_attempts`,
`_needs_refetch`).  For the declared schema keys LangGraph's reducer is
last-write-wins, which record update models.  The underscore keys are
*not* declared in `AgentState`, so in the real program `StateGraph` drops
every write to them; they are carried in this record so that a node's full
returned update is expressible — whether such a write survives the merge
is decided by the run variant (`run_trace` persists them,
`schema_filter_merge`/`run_real` drops them). -/
structure RunState where
  prompt : String
  project_id : Option String := none
  scope : Option String := none
  bids : List Bid := []
  parse_confidence : ℚ := 0
  validation_passed : Bool := false
  fetch_attempts : ℕ := 0
  needs_refetch : Bool := false
  tool_calls : List ToolCallRec := []
  tool_results : ToolResults := ⟨none, none⟩
  comparison : Comparison := ⟨[], 0, none⟩
  comparison_valid : Bool := false
  recommendation : String := ""

/-- Fresh Run State built by `run` before invoking the graph. -/
def initial_state (prompt : String) : RunState := { prompt := prompt }

/-- Merge of the parse node's partial update. -/
def apply_parse (pr : ParseOut) (st : RunState) : RunState :=
  { st with project_id := pr.project_id, scope := pr.scope,
            parse_confidence := pr.confidence }

/-- Model of `_validate_parse_node`:
`validation_passed = project_id is not None and confidence > 0.5`. -/
def validate_parse_node (st : RunState) : RunState :=
  { st with validation_passed :=
      st.project_id.isSome && decide (mkRat 1 2 < st.parse_confidence) }

/-- Model of `_clarify_node`: when the current identifier is falsy, take the
first `\b[A-Z]+-\d+\b` match of the raw prompt, or the sentinel "UNKNOWN" if
there is none; default a falsy scope to "general construction"; force
`validation_passed` to true. -/
def clarify_node (st : RunState) : RunState :=
  let project_id :=
    if truthyStr st.project_id then st.project_id
    else
      match searchClarify st.prompt with
      | some m => some m
      | none => some "UNKNOWN"
  { st with project_id := project_id,
            scope := if truthyStr st.scope then st.scope else some "general construction",
            validation_passed := true }

/-- Model of `_fetch_node`: replace `bids` by the fetched list, increment
`_fetch_attempts`, and set `_needs_refetch` from the pre-increment counter:
`len(bids) < min_bids and fetch_attempts < max_retries`. -/
def fetch_node (cfg : Config) (src : BidSource) (st : RunState) : RunState :=
  let bids := src st.fetch_attempts st.project_id
  { st with bids := bids,
            fetch_attempts := st.fetch_attempts + 1,
            needs_refetch :=
              decide (bids.length < cfg.min_bids) && decide (st.fetch_attempts < cfg.max_retries) }

/-- Merge of `_use_tools_node`'s partial update. -/
def use_tools_apply (st : RunState) : RunState :=
  let r := use_tools_node st.scope
  { st with tool_calls := r.1, tool_results := r.2 }

/-- Model of `_llm_with_tools_node` in the `use_llm = False` configuration:
without an LLM the node only writes the (here unmodelled) `_llm_tool_calls`
and `_llm_tool_results` fields and leaves the rest of the state unchanged. -/
def llm_with_tools_node (st : RunState) : RunState := st

/-- Model of `_refetch_node`: fetch again, append to the existing bids, keep
the first 10, increment the counter, recompute `_needs_refetch` from the
pre-increment counter. -/
def refetch_node (cfg : Config) (src : BidSource) (st : RunState) : RunState :=
  let bids := src st.fetch_attempts st.project_id
  let all_bids := st.bids ++ bids
  { st with bids := all_bids.take 10,
            fetch_attempts := st.fetch_attempts + 1,
            needs_refetch :=
              decide (all_bids.length < cfg.min_bids) && decide (st.fetch_attempts < cfg.max_retries) }

/-- Model of `_compare_node`. -/
def compare_node (cfg : Config) (st : RunState) : RunState :=
  { st with comparison := compare_bids st.bids cfg.top_n }

/-- Model of `_validate_comparison_node` (informational only, no branch). -/
def validate_comparison_node (st : RunState) : RunState :=
  { st with comparison_valid := decide (0 < st.comparison.top.length) }

/-- Line rendered by `_format_default` for one bid (the `:,` thousands
separators of the source are not reproduced). -/
def render_bid_line (b : Bid) : String :=
  "  • " ++ b.subcontractor ++ ": $" ++ toString b.price ++ " ("
    ++ toString b.lead_time_days ++ "d lead)"

/-- Model of `_format_default` (its `insights` parameter is unused in the
source and therefore dropped). -/
def format_default (top_bids : List Bid) : String :=
  String.intercalate "\n"
    (("Recommended " ++ toString top_bids.length ++ " contractors:")
      :: top_bids.map render_bid_line)

/-- Model of `_format_node` in the regex configuration. -/
def format_node (st : RunState) : RunState :=
  { st with recommendation := format_default st.comparison.top }

/-- Node names of the compiled graph. -/
inductive Node
  | parse
  | validate_parse
  | clarify
  | fetch
  | use_tools
  | llm_with_tools
  | refetch
  | compare
  | validate_comparison
  | format
deriving DecidableEq, Repr

/-- The part of a run from `fetch` onwards, following `build_graph`'s edges:
`fetch → use_tools → llm_with_tools`, then the conditional router
`_router_after_fetch` (`refetch` iff `_needs_refetch`), `refetch → compare`
unconditionally, then `compare → validate_comparison → format → END`.
Returns the visited node list and the final state.  Unfiltered variant:
`_needs_refetch` is persisted as if it were a declared channel, so the
router can take either branch; the real run (`after_fetch_real`) always
takes the `compare` branch.  Bounds proved over this variant hold for
every routing outcome, a fortiori for the real one. -/
def after_fetch (cfg : Config) (src : BidSource) (st : RunState) : List Node × RunState :=
  let st1 := llm_with_tools_node (use_tools_apply (fetch_node cfg src st))
  if st1.needs_refetch then
    ([.fetch, .use_tools, .llm_with_tools, .refetch, .compare, .validate_comparison, .format],
     format_node (validate_comparison_node (compare_node cfg (refetch_node cfg src st1))))
  else
    ([.fetch, .use_tools, .llm_with_tools, .compare, .validate_comparison, .format],
     format_node (validate_comparison_node (compare_node cfg st1)))

/-- One full run of the compiled graph for an arbitrary parse-node output
`pr` (covering both the LLM and the regex extraction paths):
`START → parse → validate_parse`, then `_router_after_validation` sends the
run to `fetch` directly or through `clarify` (`clarify → fetch` is an
unconditional edge).  Unfiltered variant: the underscore working keys are
persisted as if they were declared channels, so both routers can take
either branch and every routing outcome is covered; the real run
(`run_real`) always takes `clarify` and never `refetch`. -/
def run_trace (cfg : Config) (src : BidSource) (pr : ParseOut) (prompt : String) :
    List Node × RunState :=
  let st := validate_parse_node (apply_parse pr (initial_state prompt))
  if st.validation_passed then
    let r := after_fetch cfg src st
    (Node.parse :: Node.validate_parse :: r.1, r.2)
  else
    let r := after_fetch cfg src (clarify_node st)
    (Node.parse :: Node.validate_parse :: Node.clarify :: r.1, r.2)

/-- A run in the regex configuration (`use_llm = False`). -/
def run_regex (cfg : Config) (src : BidSource) (prompt : String) : List Node × RunState :=
  run_trace cfg src (parse_node_regex prompt) prompt

/-- The Bid Source actually wired in: `fetch_subcontractor_bids` on the
run's prompt and the current project id (the call index is ignored — the
source function is called identically by fetch and refetch). -/
def actual_bid_source (prompt : String) : BidSource :=
  fun _ pid => (fetch_subcontractor_bids prompt pid).bids

/-- A full run against the real mock Bid Source. -/
def run_actual (cfg : Config) (prompt : String) : List Node × RunState :=
  run_regex cfg (actual_bid_source prompt) prompt

/-- LangGraph's merge for the real `AgentState` schema (`schema.py`): the
schema declares only `prompt`, `project_id`, `scope`, `bids`, `comparison`,
`recommendation`, `tool_calls` and `tool_results`; `StateGraph` creates one
channel per declared key and silently drops a node's writes to undeclared
keys.  The underscore working keys are therefore never written: the merge
takes the node's values for the schema keys and keeps the running state's
(never-written, hence default) values for the underscore keys. -/
def schema_filter_merge (st upd : RunState) : RunState :=
  { upd with parse_confidence := st.parse_confidence,
             validation_passed := st.validation_passed,
             fetch_attempts := st.fetch_attempts,
             needs_refetch := st.needs_refetch }

/-- One node step under the real schema: compute the node's full returned
update, then keep only the writes to declared schema keys. -/
def apply_node_filtered (f : RunState → RunState) (st : RunState) : RunState :=
  schema_filter_merge st (f st)

/-- The part of a *real* run from `fetch` onwards: identical wiring to
`after_fetch`, with every node write passing the `AgentState` schema
filter.  `_router_after_fetch` reads `state.get("_needs_refetch", False)`;
the key is undeclared and so never present, the read always yields the
default `False`, and the `refetch` branch is dead in every real run. -/
def after_fetch_real (cfg : Config) (src : BidSource) (st : RunState) :
    List Node × RunState :=
  let st1 := apply_node_filtered llm_with_tools_node
    (apply_node_filtered use_tools_apply (apply_node_filtered (fetch_node cfg src) st))
  if st1.needs_refetch then
    ([.fetch, .use_tools, .llm_with_tools, .refetch, .compare, .validate_comparison, .format],
     apply_node_filtered format_node (apply_node_filtered validate_comparison_node
       (apply_node_filtered (compare_node cfg)
         (apply_node_filtered (refetch_node cfg src) st1))))
  else
    ([.fetch, .use_tools, .llm_with_tools, .compare, .validate_comparison, .format],
     apply_node_filtered format_node (apply_node_filtered validate_comparison_node
       (apply_node_filtered (compare_node cfg) st1)))

/-- One full *real* run of the compiled graph: identical wiring to
`run_trace`, with every node write passing the `AgentState` schema filter.
`_router_after_validation` reads `state.get("_validation_passed", False)`;
the key is undeclared and so never present, the read always yields the
default `False`, so validation never passes and every real run goes
through `clarify`. -/
def run_real (cfg : Config) (src : BidSource) (pr : ParseOut) (prompt : String) :
    List Node × RunState :=
  let st := apply_node_filtered validate_parse_node
    (apply_node_filtered (apply_parse pr) (initial_state prompt))
  if st.validation_passed then
    let r := after_fetch_real cfg src st
    (Node.parse :: Node.validate_parse :: r.1, r.2)
  else
    let r := after_fetch_real cfg src (apply_node_filtered clarify_node st)
    (Node.parse :: Node.validate_parse :: Node.clarify :: r.1, r.2)

/-! ### Tool cache (`old/src/construction_assistant/tool_cache.py`),
memory-only configuration (`cache_dir = None`). -/

/-- Tool inputs: the sources always pass string-keyed dicts with string
values (e.g. `{"scope": ..., "complexity": ...}`), modelled as association
lists. -/
abbrev ToolInput := List (String × String)

/-- Key order used by `json.dumps(..., sort_keys=True)`. -/
def keyLE (a b : String × String) : Prop := a.1 ≤ b.1

instance : DecidableRel keyLE :=
  fun a b => inferInstanceAs (Decidable (a.1 ≤ b.1))

/-- JSON string quoting (the inputs used contain no characters needing
escapes). -/
def quoteJson (s : String) : String := "\"" ++ s ++ "\""

/-- Model of `json.dumps(tool_input, sort_keys=True, default=str)`. -/
def serialize_input (i : ToolInput) : String :=
  "\x7b"
    ++ String.intercalate ", "
      ((List.insertionSort keyLE i).map fun kv => quoteJson kv.1 ++ ": " ++ quoteJson kv.2)
    ++ "\x7d"

/-- Hexadecimal digit character. -/
def hexChar (n : ℕ) : Char := if n < 10 then Char.ofNat (48 + n) else Char.ofNat (87 + n)

/-- Big-endian fixed-width hexadecimal rendering. -/
def hexDigits : ℕ → ℕ → List Char
  | 0, _ => []
  | k + 1, v => hexDigits k (v / 16) ++ [hexChar (v % 16)]

/-- Model of `hashlib.sha256(s.encode()).hexdigest()`: a deterministic
function from strings to 64 hexadecimal characters, here a polynomial
rolling hash rendered in hex.  SHA-256 itself is an external library
primitive; every theorem below uses only that the digest is a fixed
function whose `[:8]` truncation lands in a finite key space, or its value
at concrete inputs, never any property specific to SHA-256 — so the
conclusions transfer to the real digest. -/
def sha256_hex_model (s : String) : List Char :=
  hexDigits 64 ((s.data.foldl (fun a c => (a * 131 + c.toNat) % 16 ^ 64) 5381)
    * (2 ^ 250 + 9) % 16 ^ 64)

/-- Model of `ToolCache._generate_key`: tool name, underscore, first 8 hex
characters of the digest of the canonically serialized input. -/
def generate_key (tool_name : String) (tool_input : ToolInput) : String :=
  tool_name ++ "_" ++ String.mk ((sha256_hex_model (serialize_input tool_input)).take 8)

/-- One memory-cache entry: the payload and its absolute expiry time. -/
structure CacheEntry (α : Type) where
  result : α
  expires_at : ℚ

/-- The cache state: association list keyed by generated key, plus the
configured TTL.  Time is modelled as rational seconds passed explicitly
(`datetime.now()` becomes the `now` argument). -/
structure ToolCacheSt (α : Type) where
  memory_cache : List (String × CacheEntry α)
  ttl : ℚ

/-- Model of `ToolCache.set`: store the payload under the generated key with
expiry `now + ttl` (dict assignment replaces any previous entry). -/
def ToolCacheSt.set {α : Type} (c : ToolCacheSt α) (tool_name : String)
    (tool_input : ToolInput) (result : α) (now : ℚ) : ToolCacheSt α :=
  let key := generate_key tool_name tool_input
  { c with memory_cache :=
      (key, ⟨result, now + c.ttl⟩) :: c.memory_cache.filter fun kv => !(kv.1 == key) }

/-- Model of `ToolCache.get`: return the stored payload when the entry
exists and `now < expires_at`; an expired entry is deleted and the lookup
misses. -/
def ToolCacheSt.get {α : Type} (c : ToolCacheSt α) (tool_name : String)
    (tool_input : ToolInput) (now : ℚ) : Option α × ToolCacheSt α :=
  let key := generate_key tool_name tool_input
  match c.memory_cache.lookup key with
  | some entry =>
    if now < entry.expires_at then (some entry.result, c)
    else (none, { c with memory_cache := c.memory_cache.filter fun kv => !(kv.1 == key) })
  | none => (none, c)


/-- The 8 hexadecimal characters a generated cache key appends after the
tool name. -/
def hashHead (i : ToolInput) : List Char :=
  (sha256_hex_model (serialize_input i)).take 8

/-- Finite encoding of a generated key's hash part, used for the pigeonhole
argument: position-wise character codes (hash characters are hexadecimal, so
their codes are below 128). -/
def encodeKey (i : ToolInput) : Fin 8 → Option (Fin 128) :=
  fun j => ((hashHead i).get? j).map fun c => ⟨c.toNat % 128, Nat.mod_lt _ (by norm_num)⟩

/-! ### Helper lemmas -/

/-- Filtering one price class through an ordered insert: the inserted bid is
prepended to the class exactly when it has that price (the insert point is
before the first strictly larger price, so never between equal prices). -/
theorem filter_price_orderedInsert (p : ℚ) (a : Bid) (l : List Bid) :
    (List.orderedInsert priceLE a l).filter (priceIs p) =
      if a.price = p then a :: l.filter (priceIs p) else l.filter (priceIs p) := by
  induction l with
  | nil =>
    simp only [List.orderedInsert, List.filter, priceIs]
    by_cases h : a.price = p <;> simp [h]
  | cons b t ih =>
    simp only [List.orderedInsert]
    by_cases hab : priceLE a b
    · rw [if_pos hab]
      by_cases h : a.price = p <;> by_cases hb : b.price = p <;>
        simp [List.filter_cons, priceIs, h, hb]
    · rw [if_neg hab]
      have hba : b.price < a.price := lt_of_not_le hab
      by_cases hb : b.price = p
      · have hap : a.price ≠ p := by
          intro hcontra
          rw [hcontra, ← hb] at hba
          exact lt_irrefl _ hba
        simp [List.filter_cons, priceIs, hb, hap, ih]
      · by_cases h : a.price = p <;> simp [List.filter_cons, priceIs, hb, h, ih]

/-- Stability of the ranker's sort: each price class of the sorted list is
the price class of the input, in input order. -/
theorem filter_price_sortBids (p : ℚ) (l : List Bid) :
    (sortBidsByPrice l).filter (priceIs p) = l.filter (priceIs p) := by
  induction l with
  | nil => rfl
  | cons a t ih =>
    show (List.orderedInsert priceLE a (List.insertionSort priceLE t)).filter (priceIs p) = _
    rw [filter_price_orderedInsert]
    by_cases h : a.price = p <;> simp [List.filter_cons, priceIs, h] <;>
      simpa [sortBidsByPrice] using ih

/-- Truthiness of a nonempty string. -/
theorem truthy_some_of_ne (s : String) (h : s ≠ "") : truthyStr (some s) = true := by
  cases s with
  | mk data =>
    cases data with
    | nil => exact absurd rfl h
    | cons c cs => rfl

/-! ### Claim theorems -/

/-- C3: for every list of bids and every requested count `n`,
`compare_bids(bids, n).top` is sorted ascending by price, has length
`min n (len bids)`, preserves the input's relative order on every price
class (stability, stated per price class as a prefix of the input's class),
and the empty input yields `{top := [], count := 0}` with no average. -/
theorem C3_compare_bids_spec (bids : List Bid) (n : ℕ) :
    List.Sorted priceLE (compare_bids bids n).top ∧
    (compare_bids bids n).top.length = min n bids.length ∧
    (∀ p : ℚ, (compare_bids bids n).top.filter (priceIs p) <+: bids.filter (priceIs p)) ∧
    compare_bids [] n = ⟨[], 0, none⟩ := by
  refine ⟨?_, ?_, ?_, rfl⟩
  · rcases bids with _ | ⟨b, t⟩
    · simp [compare_bids, List.Sorted]
    · have hs := List.sorted_insertionSort priceLE (b :: t)
      have hsub : ((sortBidsByPrice (b :: t)).take n).Sublist (sortBidsByPrice (b :: t)) :=
        List.take_sublist n _
    -- the non-empty branch of compare_bids exposes the take of the sort
      simpa [compare_bids, sortBidsByPrice] using List.Pairwise.sublist hsub hs
  · rcases bids with _ | ⟨b, t⟩
    · simp [compare_bids]
    · show ((sortBidsByPrice (b :: t)).take n).length = min n (b :: t).length
      rw [List.length_take, sortBidsByPrice, List.length_insertionSort]
  · intro p
    rcases bids with _ | ⟨b, t⟩
    · simp [compare_bids]
    · have hpre : ((sortBidsByPrice (b :: t)).take n).filter (priceIs p) <+:
          (sortBidsByPrice (b :: t)).filter (priceIs p) :=
        (List.take_prefix n _).filter _
      rw [filter_price_sortBids] at hpre
      simpa [compare_bids] using hpre

/-- C9 counterexample: two calls with the *same* `project_id`, namely the
empty string, disagree — Python's `if project_id:` treats the empty string
as absent and seeds from the (differing) prompts instead. -/
theorem C9_counterexample :
    ¬ (fetch_subcontractor_bids "a" (some "") = fetch_subcontractor_bids "b" (some "")) := by
  decide

/-- C9 amended: the Bid Source is deterministic given the same *non-empty*
`project_id` (the prompt is then ignored), and given falsy project ids
(absent or empty) together with prompts agreeing on their first 20
characters, the seed being a checksum of the identifier, respectively of
the 20-character prompt head. -/
theorem C9_amended_determinism :
    (∀ p1 p2 (s : String), s ≠ "" →
      fetch_subcontractor_bids p1 (some s) = fetch_subcontractor_bids p2 (some s)) ∧
    (∀ p1 p2 (pid1 pid2 : Option String), truthyStr pid1 = false → truthyStr pid2 = false →
      p1.data.take 20 = p2.data.take 20 →
      fetch_subcontractor_bids p1 pid1 = fetch_subcontractor_bids p2 pid2) := by
  constructor
  · intro p1 p2 s hs
    have ht := truthy_some_of_ne s hs
    simp [fetch_subcontractor_bids, seedOf, ht]
  · intro p1 p2 pid1 pid2 h1 h2 hpre
    simp [fetch_subcontractor_bids, seedOf, h1, h2, hpre]

/-- C9 witness: the amended determinism at concrete inputs. -/
theorem C9_amended_witness :
    (("P-1" : String) ≠ "" ∧
      fetch_subcontractor_bids "x" (some "P-1") = fetch_subcontractor_bids "y" (some "P-1")) ∧
    (truthyStr none = false ∧ truthyStr (some "") = false ∧
      ("01234567890123456789A" : String).data.take 20 =
        ("01234567890123456789B" : String).data.take 20 ∧
      fetch_subcontractor_bids "01234567890123456789A" none =
        fetch_subcontractor_bids "01234567890123456789B" (some "")) :=
  ⟨⟨by decide, C9_amended_determinism.1 "x" "y" "P-1" (by decide)⟩,
   ⟨rfl, by decide, by decide,
    C9_amended_determinism.2 _ _ _ _ rfl (by decide) (by decide)⟩⟩

/-- Nodes after the fetch/refetch pair do not touch the attempt counter. -/
theorem fetch_attempts_tail_nodes (cfg : Config) (st : RunState) :
    (format_node (validate_comparison_node (compare_node cfg st))).fetch_attempts =
      st.fetch_attempts := by
  simp [format_node, validate_comparison_node, compare_node]

/-- C1: in every run — for every configuration, every Bid Source behaviour
and every parse outcome — the final `_fetch_attempts` counter is at most
`max_retries + 1`. -/
theorem C1_fetch_attempts_bound (cfg : Config) (src : BidSource) (pr : ParseOut)
    (prompt : String) :
    ((run_trace cfg src pr prompt).2).fetch_attempts ≤ cfg.max_retries + 1 := by
  have key : ∀ st : RunState, st.fetch_attempts = 0 →
      ((after_fetch cfg src st).2).fetch_attempts ≤ cfg.max_retries + 1 := by
    intro st h0
    unfold after_fetch
    by_cases hr : (llm_with_tools_node (use_tools_apply (fetch_node cfg src st))).needs_refetch
    · rw [if_pos hr]
      have hmax : 0 < cfg.max_retries := by
        simp [llm_with_tools_node, use_tools_apply, fetch_node, h0] at hr
        exact hr.2
      rw [fetch_attempts_tail_nodes]
      simp [refetch_node, llm_with_tools_node, use_tools_apply, fetch_node, h0]
      omega
    · rw [if_neg hr]
      rw [fetch_attempts_tail_nodes]
      simp [llm_with_tools_node, use_tools_apply, fetch_node, h0]
  unfold run_trace
  by_cases hv : (validate_parse_node (apply_parse pr (initial_state prompt))).validation_passed
  · rw [if_pos hv]
    exact key _ (by simp [validate_parse_node, apply_parse, initial_state])
  · rw [if_neg hv]
    exact key _ (by simp [clarify_node, validate_parse_node, apply_parse, initial_state])

/-- C2 counterexample: with `min_bids = 2`, `max_retries = 2` and a Bid
Source returning exactly one bid per call, a real run performs exactly one
fetch operation, not three: the `_needs_refetch` key is not declared in
`AgentState`, LangGraph drops the write, and `_router_after_fetch` always
reads the default `False`, so the refetch node never executes. -/
theorem C2_counterexample :
    ¬ ((run_real ⟨1, 2, 2⟩ (fun _ _ => [⟨"V", natQ 100, 1⟩])
          (parse_node_regex "x") "x").1.count Node.fetch
        + (run_real ⟨1, 2, 2⟩ (fun _ _ => [⟨"V", natQ 100, 1⟩])
          (parse_node_regex "x") "x").1.count Node.refetch = 3) := by
  decide

/-- The schema filter preserves the running state's (default) value of
every undeclared working key. -/
theorem apply_node_filtered_valid (f : RunState → RunState) (st : RunState) :
    (apply_node_filtered f st).validation_passed = st.validation_passed := rfl

/-- The schema filter preserves the running state's (default) value of the
refetch flag. -/
theorem apply_node_filtered_needs (f : RunState → RunState) (st : RunState) :
    (apply_node_filtered f st).needs_refetch = st.needs_refetch := rfl

/-- Fresh runs start with the validation flag at its default. -/
theorem initial_state_validation (prompt : String) :
    (initial_state prompt).validation_passed = false := rfl

/-- Fresh runs start with the refetch flag at its default. -/
theorem initial_state_needs (prompt : String) :
    (initial_state prompt).needs_refetch = false := rfl

/-- Every real run takes the single path through clarify and without
refetch: both conditional routers read undeclared keys, whose defaults the
schema filter preserves. -/
theorem run_real_trace (cfg : Config) (src : BidSource) (pr : ParseOut) (prompt : String) :
    (run_real cfg src pr prompt).1 =
      [Node.parse, Node.validate_parse, Node.clarify, Node.fetch, Node.use_tools,
       Node.llm_with_tools, Node.compare, Node.validate_comparison, Node.format] := by
  unfold run_real
  dsimp only
  simp only [apply_node_filtered_valid, initial_state_validation, Bool.false_eq_true, if_false]
  unfold after_fetch_real
  dsimp only
  simp only [apply_node_filtered_needs, initial_state_needs, Bool.false_eq_true, if_false]

/-- The final state of a real run is the filtered composition of the nodes
on the single real path. -/
theorem run_real_final (cfg : Config) (src : BidSource) (pr : ParseOut) (prompt : String) :
    (run_real cfg src pr prompt).2 =
      apply_node_filtered format_node (apply_node_filtered validate_comparison_node
        (apply_node_filtered (compare_node cfg) (apply_node_filtered llm_with_tools_node
          (apply_node_filtered use_tools_apply (apply_node_filtered (fetch_node cfg src)
            (apply_node_filtered clarify_node (apply_node_filtered validate_parse_node
              (apply_node_filtered (apply_parse pr) (initial_state prompt))))))))) := by
  unfold run_real
  dsimp only
  simp only [apply_node_filtered_valid, initial_state_validation, Bool.false_eq_true, if_false]
  unfold after_fetch_real
  dsimp only
  simp only [apply_node_filtered_needs, initial_state_needs, Bool.false_eq_true, if_false]

/-- C2 amended: with `min_bids = 2`, `max_retries = 2` and a Bid Source
that returns exactly one bid per call, every run terminates at the `format`
node after exactly one fetch operation, and the accumulated bids list
stalls at length 1: the `_needs_refetch` write is dropped by the
`AgentState` schema filter, so `_router_after_fetch` always reads `False`,
the refetch node never executes, and the single fetch's bids are final. -/
theorem C2_amended_one_fetch (tn : ℕ) (pr : ParseOut) (prompt : String)
    (f : ℕ → Option String → Bid) :
    ((run_real ⟨tn, 2, 2⟩ (fun k pid => [f k pid]) pr prompt).1.count Node.fetch
        + (run_real ⟨tn, 2, 2⟩ (fun k pid => [f k pid]) pr prompt).1.count Node.refetch
        = 1) ∧
    (run_real ⟨tn, 2, 2⟩ (fun k pid => [f k pid]) pr prompt).1.getLast? = some Node.format ∧
    ((run_real ⟨tn, 2, 2⟩ (fun k pid => [f k pid]) pr prompt).2).bids.length = 1 := by
  refine ⟨?_, ?_, ?_⟩
  · rw [run_real_trace]
    decide
  · rw [run_real_trace]
    decide
  · rw [run_real_final]
    simp [apply_node_filtered, schema_filter_merge, format_node, validate_comparison_node,
      compare_node, llm_with_tools_node, use_tools_apply, fetch_node]

/-- The node list produced by the part of the run from `fetch` onwards,
exposed as a conditional on the refetch decision. -/
theorem after_fetch_trace (cfg : Config) (src : BidSource) (st : RunState) :
    (after_fetch cfg src st).1 =
      if (llm_with_tools_node (use_tools_apply (fetch_node cfg src st))).needs_refetch then
        [Node.fetch, Node.use_tools, Node.llm_with_tools, Node.refetch, Node.compare,
         Node.validate_comparison, Node.format]
      else
        [Node.fetch, Node.use_tools, Node.llm_with_tools, Node.compare,
         Node.validate_comparison, Node.format] := by
  unfold after_fetch
  by_cases hr : (llm_with_tools_node (use_tools_apply (fetch_node cfg src st))).needs_refetch <;>
    simp [hr]

/-- Nodes after the fetch/refetch pair do not touch the refetch flag. -/
theorem needs_refetch_tail_nodes (cfg : Config) (st : RunState) :
    (format_node (validate_comparison_node (compare_node cfg st))).needs_refetch =
      st.needs_refetch := by
  simp [format_node, validate_comparison_node, compare_node]

/-- A positive Python int is a positive rational. -/
theorem natQ_pos (n : ℕ) (h : 0 < n) : 0 < natQ n := by
  unfold natQ
  rw [Rat.mkRat_one]
  exact_mod_cast h

/-- C5: clarify semantics and routing in the real run.  Under the
`AgentState` schema the `_validation_passed` write never survives, so
`_router_after_validation` always reads the default `False` and *every*
run — in particular every run whose parse validation fails — visits the
clarify step exactly once; clarify is immediately followed by fetch (the
unconditional `clarify → fetch` edge); its returned update forces
`_validation_passed` to true (that write is then dropped by the schema
filter), assigns the sentinel "UNKNOWN" when no `\b[A-Z]+-\d+\b` pattern
occurs anywhere in the prompt, and defaults a falsy scope to "general
construction".  The count being exactly one, clarify is never re-entered
in the same run. -/
theorem C5_clarify_once (cfg : Config) (src : BidSource) (pr : ParseOut) (prompt : String) :
    ((run_real cfg src pr prompt).1.count Node.clarify = 1) ∧
    ([Node.clarify, Node.fetch] <:+: (run_real cfg src pr prompt).1) ∧
    (∀ st : RunState, (clarify_node st).validation_passed = true) ∧
    (∀ st : RunState, truthyStr st.project_id = false → searchClarify st.prompt = none →
      (clarify_node st).project_id = some "UNKNOWN") ∧
    (∀ st : RunState, truthyStr st.scope = false →
      (clarify_node st).scope = some "general construction") := by
  refine ⟨?_, ?_, ?_, ?_, ?_⟩
  · rw [run_real_trace]
    decide
  · rw [run_real_trace]
    decide
  · intro st
    simp [clarify_node]
  · intro st h1 h2
    simp [clarify_node, h1, h2]
  · intro st h1
    by_cases h2 : truthyStr st.project_id <;> simp [clarify_node, h1, h2]

/-- C5 witness: a failing parse (no identifier, confidence 0.3) visits
clarify exactly once followed by fetch, and on the fresh state for prompt
"hi" the clarify node produces the sentinel values. -/
theorem C5_clarify_once_witness :
    (run_real ⟨1, 2, 2⟩ (fun _ _ => []) (ParseOut.mk none none (mkRat 3 10)) "hi").1.count
        Node.clarify = 1 ∧
    [Node.clarify, Node.fetch] <:+:
        (run_real ⟨1, 2, 2⟩ (fun _ _ => []) (ParseOut.mk none none (mkRat 3 10)) "hi").1 ∧
    truthyStr (initial_state "hi").project_id = false ∧
    searchClarify (initial_state "hi").prompt = none ∧
    (clarify_node (initial_state "hi")).validation_passed = true ∧
    (clarify_node (initial_state "hi")).project_id = some "UNKNOWN" ∧
    (clarify_node (initial_state "hi")).scope = some "general construction" := by
  have h := C5_clarify_once ⟨1, 2, 2⟩ (fun _ _ => []) (ParseOut.mk none none (mkRat 3 10)) "hi"
  exact ⟨h.1, h.2.1, rfl, by decide, h.2.2.1 (initial_state "hi"),
    h.2.2.2.1 (initial_state "hi") rfl (by decide), h.2.2.2.2 (initial_state "hi") rfl⟩

/-- C10: the mock Bid Source always returns exactly three bids, each with a
positive price and positive lead time; consequently, against the real Bid
Source every configuration with `min_bids ≤ 3` decides `_needs_refetch =
false` at the first fetch and the refetch node never executes. -/
theorem C10_three_bids_no_refetch :
    (∀ prompt pid, (fetch_subcontractor_bids prompt pid).bids.length = 3 ∧
      ∀ b ∈ (fetch_subcontractor_bids prompt pid).bids, 0 < b.price ∧ 0 < b.lead_time_days) ∧
    (∀ (cfg : Config) (pr : ParseOut) (prompt : String), cfg.min_bids ≤ 3 →
      (run_trace cfg (actual_bid_source prompt) pr prompt).1.count Node.refetch = 0 ∧
      ((run_trace cfg (actual_bid_source prompt) pr prompt).2).needs_refetch = false) := by
  constructor
  · intro prompt pid
    refine ⟨rfl, ?_⟩
    intro b hb
    simp [fetch_subcontractor_bids] at hb
    rcases hb with h | h | h <;> subst h <;>
      refine ⟨natQ_pos _ (by omega), ?_⟩ <;> simp
  · intro cfg pr prompt hmin
    have key : ∀ st : RunState,
        (llm_with_tools_node (use_tools_apply
          (fetch_node cfg (actual_bid_source prompt) st))).needs_refetch = false := by
      intro st
      have h3 : ¬ ((actual_bid_source prompt st.fetch_attempts st.project_id).length
          < cfg.min_bids) := by
        show ¬ ((fetch_subcontractor_bids prompt st.project_id).bids.length < cfg.min_bids)
        have : (fetch_subcontractor_bids prompt st.project_id).bids.length = 3 := rfl
        omega
      simp [llm_with_tools_node, use_tools_apply, fetch_node, h3]
    constructor
    · unfold run_trace
      by_cases hv : (validate_parse_node (apply_parse pr (initial_state prompt))).validation_passed
      · rw [if_pos hv]
        dsimp only
        rw [after_fetch_trace, if_neg (by rw [key]; simp)]
        decide
      · rw [if_neg hv]
        dsimp only
        rw [after_fetch_trace, if_neg (by rw [key]; simp)]
        decide
    · unfold run_trace
      by_cases hv : (validate_parse_node (apply_parse pr (initial_state prompt))).validation_passed
      · rw [if_pos hv]
        dsimp only
        unfold after_fetch
        rw [if_neg (by rw [key]; simp)]
        rw [needs_refetch_tail_nodes]
        exact key _
      · rw [if_neg hv]
        dsimp only
        unfold after_fetch
        rw [if_neg (by rw [key]; simp)]
        rw [needs_refetch_tail_nodes]
        exact key _

/-- C10 witness: the theorem at the default configuration (`min_bids = 2`)
and the prompt "hi". -/
theorem C10_three_bids_no_refetch_witness :
    ((fetch_subcontractor_bids "hi" none).bids.length = 3) ∧
    ((⟨1, 2, 2⟩ : Config).min_bids ≤ 3 ∧
      (run_trace ⟨1, 2, 2⟩ (actual_bid_source "hi") (ParseOut.mk none none (mkRat 3 10))
          "hi").1.count Node.refetch = 0 ∧
      ((run_trace ⟨1, 2, 2⟩ (actual_bid_source "hi") (ParseOut.mk none none (mkRat 3 10))
          "hi").2).needs_refetch = false) :=
  ⟨(C10_three_bids_no_refetch.1 "hi" none).1,
   by decide,
   (C10_three_bids_no_refetch.2 ⟨1, 2, 2⟩ (ParseOut.mk none none (mkRat 3 10)) "hi"
     (by decide)).1,
   (C10_three_bids_no_refetch.2 ⟨1, 2, 2⟩ (ParseOut.mk none none (mkRat 3 10)) "hi"
     (by decide)).2⟩

/-- Emptiness of a string's character list characterizes the empty string. -/
theorem data_isEmpty_iff (s : String) : s.data.isEmpty = true ↔ s = "" := by
  constructor
  · intro h
    cases s with
    | mk d =>
      cases d with
      | nil => rfl
      | cons c cs => simp [List.isEmpty_cons] at h
  · intro h
    subst h
    rfl

/-- The complexity chosen by the use_tools node is always valid. -/
theorem choose_complexity_valid (s : String) :
    lowerStr (choose_complexity s) ∈ valid_complexities := by
  unfold choose_complexity
  by_cases hc : containsSub "roofing" (lowerStr s) = true <;> simp [hc] <;> decide

/-- The market tool succeeds on every non-empty scope, with the table
lookup defaulting to the general entry. -/
theorem fetch_market_data_ok (s : String) (hs : s ≠ "") :
    fetch_market_data (some s) =
      .ok ⟨s, "2025-12-06", (market_benchmarks.lookup (lowerStr s)).getD general_benchmark⟩ := by
  have he : s.data.isEmpty = false := by
    rw [← Bool.not_eq_true, data_isEmpty_iff]
    exact hs
  simp [fetch_market_data, he]

/-- The cost tool succeeds on every non-empty scope and valid complexity,
with the table lookup defaulting to the general estimate. -/
theorem estimate_project_cost_ok (s c : String) (hs : s ≠ "")
    (hc : lowerStr c ∈ valid_complexities) :
    estimate_project_cost (some s) c =
      .ok (cost_payload_from ((scope_estimates.lookup (lowerStr s)).getD general_estimate) s c) := by
  have he : s.data.isEmpty = false := by
    rw [← Bool.not_eq_true, data_isEmpty_iff]
    exact hs
  simp [estimate_project_cost, he, hc]

/-- C6: each enrichment tool signals a tool input error exactly when its
input is invalid (missing or empty scope; for the cost tool additionally a
complexity outside low/medium/high); the use_tools node records both tools
regardless of failures (per-tool catch, run continues to the terminal
node); and a scope absent from the lookup tables degrades to the `general`
default entry instead of erroring. -/
theorem C6_tool_error_handling :
    (∀ s : Option String,
      (∃ msg, fetch_market_data s = .error msg) ↔ (s = none ∨ s = some "")) ∧
    (∀ (s : Option String) (c : String),
      (∃ msg, estimate_project_cost s c = .error msg) ↔
        (s = none ∨ s = some "" ∨ lowerStr c ∉ valid_complexities)) ∧
    (∀ s : Option String, (use_tools_node s).1.map ToolCallRec.tool =
      ["fetch_market_data", "estimate_project_cost"]) ∧
    (∀ s : Option String, (use_tools_node s).1.map ToolCallRec.status =
      if s = none then ["failed", "error"]
      else if s = some "" then ["failed", "failed"]
      else ["success", "success"]) ∧
    (∀ s : String, s ≠ "" → market_benchmarks.lookup (lowerStr s) = none →
      fetch_market_data (some s) = .ok ⟨s, "2025-12-06", general_benchmark⟩) ∧
    (∀ s c : String, s ≠ "" → lowerStr c ∈ valid_complexities →
      scope_estimates.lookup (lowerStr s) = none →
      estimate_project_cost (some s) c = .ok (cost_payload_from general_estimate s c)) ∧
    (∀ (cfg : Config) (src : BidSource) (pr : ParseOut) (prompt : String),
      (run_trace cfg src pr prompt).1.getLast? = some Node.format) := by
  refine ⟨?_, ?_, ?_, ?_, ?_, ?_, ?_⟩
  · intro s
    match s with
    | none => exact ⟨fun _ => Or.inl rfl, fun _ => ⟨_, rfl⟩⟩
    | some s =>
      by_cases hs : s = ""
      · subst hs
        exact ⟨fun _ => Or.inr rfl, fun _ => ⟨_, rfl⟩⟩
      · rw [fetch_market_data_ok s hs]
        constructor
        · rintro ⟨msg, hmsg⟩
          cases hmsg
        · rintro (h | h)
          · cases h
          · exact absurd (Option.some.inj h) hs
  · intro s c
    match s with
    | none => exact ⟨fun _ => Or.inl rfl, fun _ => ⟨_, rfl⟩⟩
    | some s =>
      by_cases hs : s = ""
      · subst hs
        exact ⟨fun _ => Or.inr (Or.inl rfl), fun _ => ⟨_, rfl⟩⟩
      · by_cases hc : lowerStr c ∈ valid_complexities
        · rw [estimate_project_cost_ok s c hs hc]
          constructor
          · rintro ⟨msg, hmsg⟩
            cases hmsg
          · rintro (h | h | h)
            · cases h
            · exact absurd (Option.some.inj h) hs
            · exact absurd hc h
        · constructor
          · intro
            exact Or.inr (Or.inr hc)
          · intro
            have he : s.data.isEmpty = false := by
              rw [← Bool.not_eq_true, data_isEmpty_iff]
              exact hs
            refine ⟨"Complexity must be one of low, medium, high", ?_⟩
            simp [estimate_project_cost, he, hc]
  · intro s
    match s with
    | none => rfl
    | some s =>
      unfold use_tools_node
      rcases h1 : fetch_market_data (some s) with e | p <;>
        rcases h2 : estimate_project_cost (some s) (choose_complexity s) with e2 | p2 <;>
        simp [h1, h2]
  · intro s
    match s with
    | none => rfl
    | some s =>
      by_cases hs : s = ""
      · subst hs
        rfl
      · have hm := fetch_market_data_ok s hs
        have hc := estimate_project_cost_ok s (choose_complexity s) hs (choose_complexity_valid s)
        unfold use_tools_node
        rw [hm]
        dsimp only
        rw [hc]
        simp [hs]
  · intro s hs hlook
    rw [fetch_market_data_ok s hs, hlook]
    rfl
  · intro s c hs hc hlook
    rw [estimate_project_cost_ok s c hs hc, hlook]
    rfl
  · intro cfg src pr prompt
    unfold run_trace
    dsimp only
    by_cases hv : (validate_parse_node (apply_parse pr (initial_state prompt))).validation_passed
    · rw [if_pos hv]
      dsimp only
      rw [after_fetch_trace]
      by_cases hr : (llm_with_tools_node (use_tools_apply (fetch_node cfg src
          (validate_parse_node (apply_parse pr (initial_state prompt)))))).needs_refetch
      · rw [if_pos hr]
        decide
      · rw [if_neg hr]
        decide
    · rw [if_neg hv]
      dsimp only
      rw [after_fetch_trace]
      by_cases hr : (llm_with_tools_node (use_tools_apply (fetch_node cfg src
          (clarify_node (validate_parse_node (apply_parse pr (initial_state prompt))))))).needs_refetch
      · rw [if_pos hr]
        decide
      · rw [if_neg hr]
        decide

/-- C6 witness: "plumbing" is a non-empty scope absent from both lookup
tables; both tools succeed on it with the general defaults. -/
theorem C6_tool_error_handling_witness :
    (("plumbing" : String) ≠ "" ∧ market_benchmarks.lookup (lowerStr "plumbing") = none ∧
      fetch_market_data (some "plumbing") = .ok ⟨"plumbing", "2025-12-06", general_benchmark⟩) ∧
    (lowerStr "medium" ∈ valid_complexities ∧ scope_estimates.lookup (lowerStr "plumbing") = none ∧
      estimate_project_cost (some "plumbing") "medium" =
        .ok (cost_payload_from general_estimate "plumbing" "medium")) :=
  ⟨⟨by decide, by decide,
    C6_tool_error_handling.2.2.2.2.1 "plumbing" (by decide) (by decide)⟩,
   ⟨by decide, by decide,
    C6_tool_error_handling.2.2.2.2.2.1 "plumbing" "medium" (by decide) (by decide) (by decide)⟩⟩

/-- C7: a cache get immediately after a set with the identical (tool name,
input) pair returns the identical payload (for a positive configured TTL),
and a get performed once the TTL has elapsed since the set misses. -/
theorem C7_cache_get_set (α : Type) (c : ToolCacheSt α) (tool_name : String)
    (tool_input : ToolInput) (result : α) (now t2 : ℚ) :
    (0 < c.ttl →
      ((c.set tool_name tool_input result now).get tool_name tool_input now).1 = some result) ∧
    (now + c.ttl ≤ t2 →
      ((c.set tool_name tool_input result now).get tool_name tool_input t2).1 = none) := by
  constructor
  · intro h
    unfold ToolCacheSt.get ToolCacheSt.set
    simp only [List.lookup, beq_self_eq_true]
    rw [if_pos (by linarith)]
  · intro h
    unfold ToolCacheSt.get ToolCacheSt.set
    simp only [List.lookup, beq_self_eq_true]
    rw [if_neg (by push_neg; linarith)]

/-- C7 witness: the cache semantics at a concrete payload, TTL 3600, set at
time 0, hit at time 0, miss at time 5000. -/
theorem C7_cache_get_set_witness :
    ((0 : ℚ) < 3600 ∧
      (((⟨[], 3600⟩ : ToolCacheSt ℕ).set "fetch_market_data" [("scope", "roofing")] 42 0).get
        "fetch_market_data" [("scope", "roofing")] 0).1 = some 42) ∧
    ((0 : ℚ) + 3600 ≤ 5000 ∧
      (((⟨[], 3600⟩ : ToolCacheSt ℕ).set "fetch_market_data" [("scope", "roofing")] 42 0).get
        "fetch_market_data" [("scope", "roofing")] 5000).1 = none) :=
  ⟨⟨by norm_num,
    (C7_cache_get_set ℕ ⟨[], 3600⟩ "fetch_market_data" [("scope", "roofing")] 42 0 0).1
      (by norm_num)⟩,
   ⟨by norm_num,
    (C7_cache_get_set ℕ ⟨[], 3600⟩ "fetch_market_data" [("scope", "roofing")] 42 0 5000).2
      (by norm_num)⟩⟩

/-- Fixed-width hexadecimal renderings have exactly their requested width. -/
theorem length_hexDigits (k : ℕ) : ∀ v, (hexDigits k v).length = k := by
  induction k with
  | zero =>
    intro v
    rfl
  | succ k ih =>
    intro v
    simp [hexDigits, ih]

/-- Hexadecimal digit characters have small character codes. -/
theorem hexChar_toNat_lt (m : ℕ) (hm : m < 16) : (hexChar m).toNat < 128 := by
  interval_cases m <;> decide

/-- Every character of a hexadecimal rendering has a small code. -/
theorem mem_hexDigits_toNat_lt (k : ℕ) : ∀ v c, c ∈ hexDigits k v → c.toNat < 128 := by
  induction k with
  | zero =>
    intro v c h
    cases h
  | succ k ih =>
    intro v c h
    simp only [hexDigits, List.mem_append, List.mem_singleton] at h
    rcases h with h | h
    · exact ih _ _ h
    · subst h
      exact hexChar_toNat_lt _ (Nat.mod_lt _ (by norm_num))

/-- The hash part of a generated key always has 8 characters. -/
theorem length_hashHead (i : ToolInput) : (hashHead i).length = 8 := by
  simp [hashHead, sha256_hex_model, List.length_take, length_hexDigits]

/-- Characters of the hash part of a generated key have codes below 128. -/
theorem mem_hashHead_toNat_lt (i : ToolInput) (c : Char) (h : c ∈ hashHead i) :
    c.toNat < 128 := by
  have hmem : c ∈ sha256_hex_model (serialize_input i) := (List.take_sublist 8 _).subset h
  exact mem_hexDigits_toNat_lt 64 _ c hmem

/-- Characters are determined by their codes. -/
theorem char_toNat_inj {c d : Char} (h : c.toNat = d.toNat) : c = d := by
  apply Char.eq_of_val_eq
  exact UInt32.toNat.inj h

/-- The finite encoding of the hash part is faithful. -/
theorem encodeKey_eq_hashHead {a b : ToolInput} (h : encodeKey a = encodeKey b) :
    hashHead a = hashHead b := by
  apply List.ext
  intro n
  by_cases hn : n < 8
  · have hfun := congrFun h ⟨n, hn⟩
    unfold encodeKey at hfun
    rw [show ((⟨n, hn⟩ : Fin 8) : ℕ) = n from rfl] at hfun
    cases hga : (hashHead a).get? n with
    | none =>
      have h8 : (hashHead a).length ≤ n := List.get?_eq_none.mp hga
      rw [length_hashHead] at h8
      omega
    | some c1 =>
      cases hgb : (hashHead b).get? n with
      | none =>
        have h8 : (hashHead b).length ≤ n := List.get?_eq_none.mp hgb
        rw [length_hashHead] at h8
        omega
      | some c2 =>
        rw [hga, hgb] at hfun
        simp only [Option.map_some'] at hfun
        have hval : c1.toNat % 128 = c2.toNat % 128 :=
          congrArg Fin.val (Option.some.inj hfun)
        have h1 : c1.toNat < 128 := mem_hashHead_toNat_lt a c1 (List.get?_mem hga)
        have h2 : c2.toNat < 128 := mem_hashHead_toNat_lt b c2 (List.get?_mem hgb)
        rw [Nat.mod_eq_of_lt h1, Nat.mod_eq_of_lt h2] at hval
        rw [char_toNat_inj hval]
  · have ha : (hashHead a).get? n = none :=
      List.get?_eq_none.mpr (by rw [length_hashHead]; omega)
    have hb : (hashHead b).get? n = none :=
      List.get?_eq_none.mpr (by rw [length_hashHead]; omega)
    rw [ha, hb]

/-- C8 counterexample: the cache key generator is *not* injective in the
tool input for a fixed tool name.  The key keeps only the first 8
hexadecimal characters of the digest, so all keys for one tool live in a
finite set, while the space of tool inputs is infinite — by pigeonhole two
distinct inputs must collide.  The argument uses no property of the digest
function beyond the `[:8]` truncation, so it applies verbatim to the real
SHA-256. -/
theorem C8_counterexample :
    ¬ Function.Injective (fun i : ToolInput => generate_key "fetch_market_data" i) := by
  intro hinj
  obtain ⟨a, b, hne, heq⟩ := Finite.exists_ne_map_eq_of_infinite encodeKey
  apply hne
  apply hinj
  show generate_key "fetch_market_data" a = generate_key "fetch_market_data" b
  have hh : hashHead a = hashHead b := encodeKey_eq_hashHead heq
  show "fetch_market_data" ++ "_" ++ String.mk (hashHead a) =
    "fetch_market_data" ++ "_" ++ String.mk (hashHead b)
  rw [hh]

/-- C8 amended: distinct inputs to the same tool receive distinct cache
keys exactly when their truncated digests differ; collisions of the 8-hex
character (32 bit) truncation are possible and are the only source of key
collisions. -/
theorem C8_amended_distinct_keys (t : String) (i1 i2 : ToolInput)
    (h : hashHead i1 ≠ hashHead i2) :
    generate_key t i1 ≠ generate_key t i2 := by
  intro he
  apply h
  have hd := congrArg String.data he
  unfold generate_key at hd
  rw [String.data_append, String.data_append] at hd
  dsimp only at hd
  unfold hashHead
  exact List.append_cancel_left hd

set_option maxHeartbeats 1000000 in
/-- C8 witness: two concrete scope inputs whose truncated digests differ
receive distinct keys. -/
theorem C8_amended_distinct_keys_witness :
    hashHead [("scope", "a")] ≠ hashHead [("scope", "b")] ∧
    generate_key "fetch_market_data" [("scope", "a")] ≠
      generate_key "fetch_market_data" [("scope", "b")] :=
  ⟨by decide, C8_amended_distinct_keys "fetch_market_data" [("scope", "a")] [("scope", "b")]
    (by decide)⟩

/-- Dropping as many elements as the `takeWhile` block is `dropWhile`. -/
theorem drop_takeWhile_length (p : Char → Bool) (l : List Char) :
    l.drop (l.takeWhile p).length = l.dropWhile p := by
  induction l with
  | nil => rfl
  | cons c cs ih =>
    by_cases hp : p c <;> simp [List.takeWhile_cons, List.dropWhile_cons, hp, ih]

/-- A list splits into its `takeWhile` block and the corresponding drop. -/
theorem takeWhile_append_drop_eq (p : Char → Bool) (l : List Char) :
    l.takeWhile p ++ l.drop (l.takeWhile p).length = l := by
  rw [drop_takeWhile_length]
  exact List.takeWhile_append_dropWhile p l

/-- The `takeWhile` block of a concatenation whose left part satisfies the
predicate throughout and whose right part starts by violating it. -/
theorem takeWhile_append_all (p : Char → Bool) (a b : List Char)
    (ha : ∀ c ∈ a, p c = true) (hb : ∀ c, b.head? = some c → p c = false) :
    (a ++ b).takeWhile p = a := by
  induction a with
  | nil =>
    cases b with
    | nil => rfl
    | cons c cs =>
      simp [List.takeWhile_cons, hb c rfl]
  | cons x xs ih =>
    simp only [List.cons_append, List.takeWhile_cons, ha x (by simp), if_true]
    rw [ih (fun c hc => ha c (by simp [hc]))]

/-- Digits are not capitals. -/
theorem digit_not_upper {c : Char} (h : isDigitCh c = true) : isUpperCh c = false := by
  rw [← Bool.not_eq_true]
  intro hu
  simp only [isDigitCh, isUpperCh, Bool.and_eq_true, decide_eq_true_eq] at h hu
  omega

/-- Digits are not the hyphen. -/
theorem digit_ne_hyphen {c : Char} (h : isDigitCh c = true) : c ≠ '-' := by
  intro hc
  subst hc
  cases h

/-- Soundness of the anchored identifier matcher: a successful match is a
non-empty full identifier and starts the scanned text. -/
theorem matchIdAt_sound {l r : List Char} (h : matchIdAt l = some r) :
    isIdentList r = true ∧ r <+: l ∧ r ≠ [] := by
  unfold matchIdAt at h
  dsimp only at h
  by_cases hL : (l.takeWhile isUpperCh).isEmpty = true
  · rw [if_pos hL] at h
    cases h
  · rw [if_neg hL] at h
    have hLa : ∀ c ∈ l.takeWhile isUpperCh, isUpperCh c = true :=
      fun c hc => List.mem_takeWhile_imp hc
    have hLne : l.takeWhile isUpperCh ≠ [] := by
      intro hnil
      rw [hnil] at hL
      exact hL rfl
    have hsplit := takeWhile_append_drop_eq isUpperCh l
    by_cases hH : (l.drop (l.takeWhile isUpperCh).length).head? = some '-'
    · rw [if_pos hH] at h
      by_cases hD : (((l.drop (l.takeWhile isUpperCh).length).drop 1).takeWhile
          isDigitCh).isEmpty = true
      · rw [if_pos hD] at h
        cases h
      · rw [if_neg hD] at h
        obtain rfl : l.takeWhile isUpperCh ++ '-' ::
            ((l.drop (l.takeWhile isUpperCh).length).drop 1).takeWhile isDigitCh = r :=
          Option.some.inj h
        obtain ⟨t, hrest⟩ : ∃ t, l.drop (l.takeWhile isUpperCh).length = '-' :: t := by
          cases hrest : l.drop (l.takeWhile isUpperCh).length with
          | nil => rw [hrest] at hH; cases hH
          | cons c cs =>
            rw [hrest] at hH
            exact ⟨cs, by rw [Option.some.inj hH]⟩
        have hdrop1 : (l.drop (l.takeWhile isUpperCh).length).drop 1 = t := by
          rw [hrest]
          rfl
        have hDa : ∀ c ∈ ((l.drop (l.takeWhile isUpperCh).length).drop 1).takeWhile isDigitCh,
            isDigitCh c = true := fun c hc => List.mem_takeWhile_imp hc
        have hDfalse : (((l.drop (l.takeWhile isUpperCh).length).drop 1).takeWhile
            isDigitCh).isEmpty = false := by
          cases hbe : (((l.drop (l.takeWhile isUpperCh).length).drop 1).takeWhile
              isDigitCh).isEmpty
          · rfl
          · exact absurd hbe hD
        refine ⟨?_, ?_, ?_⟩
        · unfold isIdentList
          dsimp only
          rw [takeWhile_append_all isUpperCh _ _ hLa (fun c hc => by
            rw [← Option.some.inj hc]
            decide)]
          rw [if_neg hL, List.drop_left]
          simp only [List.head?_cons, if_true]
          simp only [List.drop_succ_cons, List.drop_zero, Bool.and_eq_true,
            Bool.not_eq_true']
          exact ⟨hDfalse, List.all_eq_true.mpr hDa⟩
        · rw [hdrop1]
          obtain ⟨u, hu⟩ := @List.takeWhile_prefix Char t isDigitCh
          refine ⟨u, ?_⟩
          conv_rhs => rw [← hsplit, hrest]
          rw [List.append_assoc, List.cons_append, hu]
        · intro hnil
          exact hLne (List.append_eq_nil.mp hnil).1
    · rw [if_neg hH] at h
      by_cases hD : ((l.drop (l.takeWhile isUpperCh).length).takeWhile isDigitCh).isEmpty = true
      · rw [if_pos hD] at h
        cases h
      · rw [if_neg hD] at h
        obtain rfl : l.takeWhile isUpperCh ++
            (l.drop (l.takeWhile isUpperCh).length).takeWhile isDigitCh = r :=
          Option.some.inj h
        have hDa : ∀ c ∈ (l.drop (l.takeWhile isUpperCh).length).takeWhile isDigitCh,
            isDigitCh c = true := fun c hc => List.mem_takeWhile_imp hc
        obtain ⟨d, ds', hds⟩ : ∃ d ds',
            (l.drop (l.takeWhile isUpperCh).length).takeWhile isDigitCh = d :: ds' := by
          cases hds : (l.drop (l.takeWhile isUpperCh).length).takeWhile isDigitCh with
          | nil => rw [hds] at hD; exact absurd rfl hD
          | cons d ds' => exact ⟨d, ds', rfl⟩
        have hddig : isDigitCh d = true := hDa d (by rw [hds]; simp)
        have hDfalse : ((l.drop (l.takeWhile isUpperCh).length).takeWhile
            isDigitCh).isEmpty = false := by
          cases hbe : ((l.drop (l.takeWhile isUpperCh).length).takeWhile isDigitCh).isEmpty
          · rfl
          · exact absurd hbe hD
        refine ⟨?_, ?_, ?_⟩
        · unfold isIdentList
          dsimp only
          rw [takeWhile_append_all isUpperCh _ _ hLa (fun c hc => by
            rw [hds] at hc
            rw [← Option.some.inj hc]
            exact digit_not_upper hddig)]
          rw [if_neg hL, List.drop_left]
          rw [if_neg (by
            rw [hds]
            intro hcontra
            exact digit_ne_hyphen hddig (Option.some.inj hcontra))]
          simp only [Bool.and_eq_true, Bool.not_eq_true']
          exact ⟨hDfalse, List.all_eq_true.mpr hDa⟩
        · obtain ⟨u, hu⟩ :=
            @List.takeWhile_prefix Char (l.drop (l.takeWhile isUpperCh).length) isDigitCh
          refine ⟨u, ?_⟩
          conv_rhs => rw [← hsplit]
          rw [List.append_assoc, hu]
        · intro hnil
          exact hLne (List.append_eq_nil.mp hnil).1

/-- A string passing the full identifier test splits into a non-empty
capital block, an optional hyphen, and a non-empty digit block. -/
theorem isIdentList_decomp {id : List Char} (h : isIdentList id = true) :
    ∃ L D, L ≠ [] ∧ (∀ c ∈ L, isUpperCh c = true) ∧ D ≠ [] ∧
      (∀ c ∈ D, isDigitCh c = true) ∧ (id = L ++ '-' :: D ∨ id = L ++ D) := by
  unfold isIdentList at h
  dsimp only at h
  by_cases hL : (id.takeWhile isUpperCh).isEmpty = true
  · rw [if_pos hL] at h
    cases h
  · rw [if_neg hL] at h
    have hLa : ∀ c ∈ id.takeWhile isUpperCh, isUpperCh c = true :=
      fun c hc => List.mem_takeWhile_imp hc
    have hLne : id.takeWhile isUpperCh ≠ [] := fun hnil => hL (by rw [hnil]; rfl)
    have hsplit := takeWhile_append_drop_eq isUpperCh id
    by_cases hH : (id.drop (id.takeWhile isUpperCh).length).head? = some '-'
    · rw [if_pos hH] at h
      rw [Bool.and_eq_true, Bool.not_eq_true'] at h
      obtain ⟨t, hrest⟩ : ∃ t, id.drop (id.takeWhile isUpperCh).length = '-' :: t := by
        cases hrest : id.drop (id.takeWhile isUpperCh).length with
        | nil => rw [hrest] at hH; cases hH
        | cons c cs =>
          rw [hrest] at hH
          exact ⟨cs, by rw [← Option.some.inj hH]⟩
      have hd1 : (id.drop (id.takeWhile isUpperCh).length).drop 1 = t := by
        rw [hrest]
        rfl
      rw [hd1] at h
      refine ⟨id.takeWhile isUpperCh, t, hLne, hLa, ?_, ?_, Or.inl ?_⟩
      · intro hnil
        rw [hnil] at h
        simpa using h.1
      · exact fun c hc => List.all_eq_true.mp h.2 c hc
      · conv_lhs => rw [← hsplit]
        rw [hrest]
    · rw [if_neg hH] at h
      rw [Bool.and_eq_true, Bool.not_eq_true'] at h
      refine ⟨id.takeWhile isUpperCh, id.drop (id.takeWhile isUpperCh).length,
        hLne, hLa, ?_, ?_, Or.inr hsplit.symm⟩
      · intro hnil
        rw [hnil] at h
        simpa using h.1
      · exact fun c hc => List.all_eq_true.mp h.2 c hc

/-- Completeness of the anchored matcher: a text starting with a full
identifier matches. -/
theorem matchIdAt_front {id : List Char} (post : List Char) (h : isIdentList id = true) :
    (matchIdAt (id ++ post)).isSome = true := by
  obtain ⟨L, D, hLne, hLa, hDne, hDa, hcase⟩ := isIdentList_decomp h
  obtain ⟨d, D', rfl⟩ : ∃ d D', D = d :: D' := by
    cases D with
    | nil => exact absurd rfl hDne
    | cons d D' => exact ⟨d, D', rfl⟩
  have hd : isDigitCh d = true := hDa d (by simp)
  have hLe : L.isEmpty = false := by
    cases L with
    | nil => exact absurd rfl hLne
    | cons x xs => rfl
  rcases hcase with rfl | rfl
  · rw [show (L ++ '-' :: d :: D') ++ post = L ++ '-' :: d :: (D' ++ post) by simp]
    unfold matchIdAt
    dsimp only
    rw [takeWhile_append_all isUpperCh L _ hLa (fun c hc => by
      rw [← Option.some.inj hc]
      decide)]
    rw [if_neg (by simp [hLe]), List.drop_left]
    simp only [List.head?_cons, if_true, List.drop_succ_cons, List.drop_zero]
    rw [List.takeWhile_cons, if_pos hd]
    rw [if_neg (by simp)]
    rfl
  · rw [show (L ++ d :: D') ++ post = L ++ d :: (D' ++ post) by simp]
    unfold matchIdAt
    dsimp only
    rw [takeWhile_append_all isUpperCh L _ hLa (fun c hc => by
      rw [← Option.some.inj hc]
      exact digit_not_upper hd)]
    rw [if_neg (by simp [hLe]), List.drop_left]
    rw [if_neg (by
      simp only [List.head?_cons, Option.some.injEq]
      exact digit_ne_hyphen hd)]
    rw [List.takeWhile_cons, if_pos hd]
    rw [if_neg (by simp)]
    rfl

/-- A text containing a full identifier anywhere admits a search match. -/
theorem searchId_isSome_append (pre : List Char) {id : List Char} (post : List Char)
    (h : isIdentList id = true) : (searchId (pre ++ id ++ post)).isSome = true := by
  induction pre with
  | nil =>
    have hid : id ≠ [] := by
      intro hnil
      rw [hnil] at h
      cases h
    obtain ⟨c, cs, rfl⟩ : ∃ c cs, id = c :: cs := by
      cases id with
      | nil => exact absurd rfl hid
      | cons c cs => exact ⟨c, cs, rfl⟩
    simp only [List.nil_append]
    obtain ⟨m, hm⟩ := Option.isSome_iff_exists.mp (matchIdAt_front post h)
    rw [List.cons_append] at hm
    rw [List.cons_append, searchId, hm]
    rfl
  | cons c cs ih =>
    simp only [List.cons_append]
    rw [searchId]
    cases hm : matchIdAt (c :: (cs ++ id ++ post)) with
    | some m => rfl
    | none =>
      simpa [List.cons_append] using ih

/-- Soundness of the search: a found match is a non-empty full identifier
occurring inside the scanned text. -/
theorem searchId_sound {l r : List Char} (h : searchId l = some r) :
    isIdentList r = true ∧ r <:+: l ∧ r ≠ [] := by
  induction l with
  | nil => cases h
  | cons c cs ih =>
    rw [searchId] at h
    cases hm : matchIdAt (c :: cs) with
    | some m =>
      rw [hm] at h
      obtain rfl : m = r := Option.some.inj h
      obtain ⟨ha, hb, hc⟩ := matchIdAt_sound hm
      obtain ⟨t, ht⟩ := hb
      exact ⟨ha, ⟨[], t, by simp [ht]⟩, hc⟩
    | none =>
      rw [hm] at h
      obtain ⟨ha, hb, hc⟩ := ih h
      obtain ⟨s, t, hst⟩ := hb
      exact ⟨ha, ⟨c :: s, t, by simp [← hst]⟩, hc⟩

/-- C4 counterexample: the prompt "AB-1 P-123" contains the identifier
"P-123" (matching the pattern), yet the fallback extractor returns the
*earlier* match "AB-1", not that exact identifier — `re.search` is
leftmost. -/
theorem C4_counterexample :
    (isIdentStr "P-123" = true ∧ ("P-123" : String).data <:+: (upperStr "AB-1 P-123").data) ∧
    (parse_with_regex "AB-1 P-123").1 ≠ some "P-123" := by
  refine ⟨⟨by decide, by decide⟩, by decide⟩

/-- C4 amended: the fallback extractor returns the leftmost identifier
match of the uppercased prompt: whatever it returns is a non-empty full
identifier occurring in the uppercased prompt, it finds one whenever the
uppercased prompt contains a full identifier anywhere, and the parse step
assigns confidence 0.6 exactly when an identifier was found, 0.3
otherwise. -/
theorem C4_amended_extractor (prompt : String) :
    (∀ r : String, (parse_with_regex prompt).1 = some r →
      isIdentStr r = true ∧ r.data <:+: (upperStr prompt).data ∧ r ≠ "") ∧
    (∀ pre id post : List Char, (upperStr prompt).data = pre ++ id ++ post →
      isIdentList id = true → ((parse_with_regex prompt).1).isSome = true) ∧
    ((parse_node_regex prompt).confidence =
      if ((parse_with_regex prompt).1).isSome then mkRat 6 10 else mkRat 3 10) := by
  have hfst : (parse_with_regex prompt).1 = (searchId (upperStr prompt).data).map String.mk :=
    rfl
  refine ⟨?_, ?_, ?_⟩
  · intro r hr
    rw [hfst] at hr
    obtain ⟨m, hm, rfl⟩ := Option.map_eq_some'.mp hr
    obtain ⟨ha, hb, hc⟩ := searchId_sound hm
    refine ⟨ha, hb, ?_⟩
    intro hcontra
    exact hc (congrArg String.data hcontra)
  · intro pre id post hdec hid
    rw [hfst, Option.isSome_map', hdec]
    exact searchId_isSome_append pre post hid
  · unfold parse_node_regex
    dsimp only
    cases hp : (parse_with_regex prompt).1 with
    | none => rfl
    | some r =>
      obtain ⟨m, hm, hmr⟩ := Option.map_eq_some'.mp (hfst ▸ hp)
      have hmne : m ≠ [] := (searchId_sound hm).2.2
      have htr : truthyStr (some r) = true := by
        rw [← hmr]
        unfold truthyStr
        cases m with
        | nil => exact absurd rfl hmne
        | cons c cs => rfl
      rw [htr]
      rfl

/-- C4 witness: on the prompt "P-7" the extractor returns exactly "P-7",
which is a non-empty identifier occurring in the uppercased prompt; the
prompt decomposes around it, forcing a find; and the confidence rule holds
on it. -/
theorem C4_amended_extractor_witness :
    ((parse_with_regex "P-7").1 = some "P-7" ∧ isIdentStr "P-7" = true ∧
      ("P-7" : String).data <:+: (upperStr "P-7").data ∧ ("P-7" : String) ≠ "") ∧
    ((upperStr "P-7").data = [] ++ ("P-7" : String).data ++ [] ∧
      isIdentList ("P-7" : String).data = true ∧
      ((parse_with_regex "P-7").1).isSome = true) ∧
    ((parse_node_regex "P-7").confidence =
      if ((parse_with_regex "P-7").1).isSome then mkRat 6 10 else mkRat 3 10) := by
  have h := C4_amended_extractor "P-7"
  have h1 := h.1 "P-7" (by decide)
  exact ⟨⟨by decide, h1.1, h1.2.1, h1.2.2⟩,
    ⟨by decide, by decide, h.2.1 [] ("P-7" : String).data [] (by decide) (by decide)⟩,
    h.2.2⟩
